import Mathlib

/-!
Verification of the streaming token-generation controller of the TBYS-LLM
repository (`src/models/streaming.py`, class `StreamingGenerator`).

The development shallowly embeds the generation loop of
`StreamingGenerator.generate_stream` (lines 25-184), the finalization and
persistence logic (lines 164-180 and `_save_message`, lines 206-216), and the
inline sampling pipeline (lines 80-117).  External collaborators are modelled
as function parameters:

* the tokenizer decode is `decode : Bool → List Nat → Except String String`
  (the Bool is `skip_special_tokens`); an `Except.error` models a raised
  exception;
* the model forward pass combined with the random draw is an oracle
  `toks : Nat → Except String Nat` giving the token sampled at each step
  (an `Except.error` models an exception raised by the forward pass);
* floating-point values in the sampler are modelled by `EF`, rationals
  extended with `nan`, `+inf`, `-inf`, with IEEE-754 special-value
  propagation as implemented by the torch operations the source calls;
  the real exponential inside softmax is a function parameter.
-/

namespace TBYS

/-- Events of the SSE stream, one per `yield` of `generate_stream`
(the JSON frames with `type` thinking / thinking_complete / response /
response_complete / done, and the error frame). -/
inductive StreamEvent where
  | thinking (content : String)
  | thinkingComplete (content : String)
  | response (content : String)
  | responseComplete (content : String)
  | done
  | error (msg : String)
  deriving DecidableEq, Repr

/-- Generation parameters fixed at construction
(`StreamingGenerator.__init__`, lines 13-23). -/
structure GenConfig where
  eosTokenId : Nat
  /-- reserved thinking-end marker, `self.thinking_token_id = 151668` (line 23) -/
  thinkingTokenId : Nat
  /-- line 19; read only by the chat template (line 41) and `top_p` (line 64),
  never by the loop's phase logic -/
  enableThinking : Bool
  maxNewTokens : Nat
  conversationId : Int
  deriving DecidableEq, Repr

/-- Mutable state of one in-flight generation (lines 61-63, 73). -/
structure GenState where
  generatedIds : List Nat
  thinkingBuffer : List Nat
  responseBuffer : List Nat
  inThinking : Bool
  deriving DecidableEq, Repr

/-- Initial state (lines 61-63, 73): `generated_ids` starts as the prompt ids,
both buffers empty, and `in_thinking = True` (line 63 — unconditional, the
source does not consult `enable_thinking` here). -/
def initState (promptIds : List Nat) : GenState :=
  { generatedIds := promptIds
    thinkingBuffer := []
    responseBuffer := []
    inThinking := true }

/-- Outcome of one loop iteration: fall through to the next step, `break`
out of the loop (line 133), or an exception propagating to the handler
at line 182. -/
inductive StepRes where
  | next
  | brk
  | exn (m : String)
  deriving DecidableEq, Repr

/-- One iteration of the generation loop, lines 115-162, for a sampled token
`tok` (or an exception from the forward pass / sampler) at index `step`.
Returns the events yielded during the iteration, the updated state, and
whether the loop continues, breaks, or aborts with an exception. -/
def genStep (cfg : GenConfig) (decode : Bool → List Nat → Except String String)
    (tok : Except String Nat) (step : Nat) (st : GenState) :
    List StreamEvent × GenState × StepRes :=
  match tok with
  | .error m => ([], st, .exn m)
  | .ok t =>
    -- line 120: generated_ids = torch.cat([generated_ids, next_token])
    let st1 : GenState := { st with generatedIds := st.generatedIds ++ [t] }
    -- lines 125-127: debug decode of the single token for the first 10 steps
    -- (its value is only printed, but an exception from it propagates)
    match (if step < 10 then decode false [t] else .ok "") with
    | .error m => ([], st1, .exn m)
    | .ok _ =>
      -- lines 129-133: EOS check
      if t = cfg.eosTokenId then
        ([.done], st1, .brk)
      -- lines 135-143: thinking-end marker while still in the thinking phase
      else if t = cfg.thinkingTokenId ∧ st1.inThinking = true then
        let st2 : GenState := { st1 with inThinking := false }
        match decode true st1.thinkingBuffer with
        | .error m => ([], st2, .exn m)
        | .ok txt => ([.thinkingComplete txt], st2, .next)
      -- lines 145-154: thinking-phase append and cadence emission
      else if st1.inThinking = true then
        let st2 : GenState := { st1 with thinkingBuffer := st1.thinkingBuffer ++ [t] }
        if st2.thinkingBuffer.length % 5 = 0 ∨ step = 0 then
          match decode true st2.thinkingBuffer with
          | .error m => ([], st2, .exn m)
          | .ok txt => ([.thinking txt], st2, .next)
        else ([], st2, .next)
      -- lines 155-162: response-phase append and cadence emission
      else
        let st2 : GenState := { st1 with responseBuffer := st1.responseBuffer ++ [t] }
        if st2.responseBuffer.length % 3 = 0 ∨ step = 0 then
          match decode true st2.responseBuffer with
          | .error m => ([], st2, .exn m)
          | .ok txt => ([.response txt], st2, .next)
        else ([], st2, .next)

/-- How the `for step in range(max_new_tokens)` loop ended: the range was
exhausted, the EOS `break` fired, or an exception escaped the body. -/
inductive LoopExit where
  | limit
  | eosBreak
  | exn (m : String)
  deriving DecidableEq, Repr

/-- The generation loop of lines 75-162: runs `gas` remaining iterations
starting at index `step`, accumulating the yielded events. -/
def genLoop (cfg : GenConfig) (decode : Bool → List Nat → Except String String)
    (toks : Nat → Except String Nat) :
    Nat → Nat → GenState → List StreamEvent × GenState × LoopExit
  | _, 0, st => ([], st, .limit)
  | step, gas + 1, st =>
    match genStep cfg decode (toks step) step st with
    | (evs, st', .next) =>
      match genLoop cfg decode toks (step + 1) gas st' with
      | (evs2, st2, x) => (evs ++ evs2, st2, x)
    | (evs, st', .brk) => (evs, st', .eosBreak)
    | (evs, st', .exn m) => (evs, st', .exn m)

/-- Assistant-turn text assembled by `_save_message`, lines 212-214:
`content = response; if thinking: content = thinking+"\n\n"+response if
response else thinking`. -/
def saveContent (thinking response : String) : String :=
  if thinking ≠ "" then
    (if response ≠ "" then thinking ++ "\n\n" ++ response else thinking)
  else response

/-- Finalization after the loop (lines 164-180) followed by `_save_message`
(lines 206-216).  Returns the events yielded by the finalization together
with either the persistence action (`some (conversation_id, "assistant",
content)`, or `none` when `conversation_id ≤ 0`, line 208) or the message of
an exception raised by one of the decode calls.  Events already yielded
before the exception are kept, matching generator semantics. -/
def finalize (cfg : GenConfig) (decode : Bool → List Nat → Except String String)
    (st : GenState) : List StreamEvent × Except String (Option (Int × String × String)) :=
  -- lines 165-169: flush the thinking buffer if the marker never arrived
  match (if st.inThinking && !st.thinkingBuffer.isEmpty then
      (decode true st.thinkingBuffer).map (fun txt => [StreamEvent.thinkingComplete txt])
    else .ok []) with
  | .error m => ([], .error m)
  | .ok evs1 =>
    -- lines 171-175: flush the response buffer
    match (if !st.responseBuffer.isEmpty then
        (decode true st.responseBuffer).map (fun txt => [StreamEvent.responseComplete txt])
      else .ok []) with
    | .error m => (evs1, .error m)
    | .ok evs2 =>
      -- line 178: final_thinking
      match (if !st.thinkingBuffer.isEmpty then decode true st.thinkingBuffer else .ok "") with
      | .error m => (evs1 ++ evs2, .error m)
      | .ok ft =>
        -- line 179: final_response
        match (if !st.responseBuffer.isEmpty then decode true st.responseBuffer else .ok "") with
        | .error m => (evs1 ++ evs2, .error m)
        | .ok fr =>
          (evs1 ++ evs2,
           .ok (if 0 < cfg.conversationId then
              some (cfg.conversationId, "assistant", saveContent ft fr)
            else none))

/-- Result of one whole call of `generate_stream`: the framed event stream in
emission order, and the persistence action if one happened. -/
structure GenResult where
  events : List StreamEvent
  saved : Option (Int × String × String)
  deriving DecidableEq, Repr

/-- The whole of `generate_stream` (lines 25-184): the model-loaded guard
(lines 27-29), the loop, finalization and persistence inside the `try`, and
the `except` handler (lines 182-184) that yields a single error frame and
performs no persistence. -/
def generateStream (cfg : GenConfig) (modelLoaded : Bool)
    (decode : Bool → List Nat → Except String String)
    (toks : Nat → Except String Nat) (promptIds : List Nat) : GenResult :=
  if !modelLoaded then { events := [.error "Model not loaded"], saved := none }
  else
    match genLoop cfg decode toks 0 cfg.maxNewTokens (initState promptIds) with
    | (evs, _, .exn m) => { events := evs ++ [.error m], saved := none }
    | (evs, st, _) =>
      match finalize cfg decode st with
      | (evs2, .error m) => { events := evs ++ evs2 ++ [.error m], saved := none }
      | (evs2, .ok save) => { events := evs ++ evs2, saved := save }

/-- Predicate: the event is the terminal `done` frame. -/
def isDoneEv : StreamEvent → Bool
  | .done => true
  | _ => false

/-- Predicate: the event is an error frame. -/
def isErrEv : StreamEvent → Bool
  | .error _ => true
  | _ => false

/-!
The sampling pipeline, lines 80-117 of `generate_stream`.  Logits are lists
of `EF`: rationals extended with the IEEE-754 special values, with the
propagation rules of the torch operations the source uses.  In particular
`torch.clamp` propagates NaN (it is `min(max(x, lo), hi)` with
NaN-propagating elementwise min/max), every IEEE comparison involving NaN is
false, and torch's sorting operations order NaN above every other value.
The real exponential inside softmax is kept as a function parameter
`e : ℚ → ℚ` on the finite values; none of the stated results depend on its
numeric values.
-/

/-- Extended floating-point value: NaN, the two infinities, or a finite
value idealized as a rational (rounding is not modelled; no claim here
depends on rounding). -/
inductive EF where
  | nan
  | pinf
  | ninf
  | fin (q : ℚ)
  deriving DecidableEq, Repr

/-- torch.isnan, elementwise. -/
def EF.isNaN : EF → Bool
  | .nan => true
  | _ => false

/-- torch.isinf, elementwise (true only for the infinities, not NaN). -/
def EF.isInfEF : EF → Bool
  | .pinf => true
  | .ninf => true
  | _ => false

/-- torch.clamp with bounds `lo ≤ hi`: infinities are clamped to the bounds,
finite values are clipped, and NaN propagates (torch.clamp does not remove
NaN). -/
def EF.clamp (lo hi : ℚ) : EF → EF
  | .nan => .nan
  | .pinf => .fin hi
  | .ninf => .fin lo
  | .fin q => .fin (max lo (min hi q))

/-- Division by a scalar `t` (used with the temperature, which the guard on
line 86 makes strictly positive here). -/
def EF.divQ (t : ℚ) : EF → EF
  | .nan => .nan
  | .pinf => if 0 ≤ t then .pinf else .ninf
  | .ninf => if 0 ≤ t then .ninf else .pinf
  | .fin q => .fin (q / t)

/-- IEEE `<` as a Bool: any comparison involving NaN is false. -/
def EF.ltB : EF → EF → Bool
  | .nan, _ => false
  | _, .nan => false
  | .ninf, .ninf => false
  | .ninf, _ => true
  | _, .ninf => false
  | .pinf, _ => false
  | .fin _, .pinf => true
  | .fin a, .fin b => decide (a < b)

/-- IEEE `x > p` against a finite threshold (used for `cumulative_probs >
top_p`): false for NaN. -/
def EF.gtQ : EF → ℚ → Bool
  | .nan, _ => false
  | .pinf, _ => true
  | .ninf, _ => false
  | .fin a, p => decide (p < a)

/-- IEEE addition with torch's special-value rules. -/
def EF.add : EF → EF → EF
  | .nan, _ => .nan
  | _, .nan => .nan
  | .pinf, .ninf => .nan
  | .ninf, .pinf => .nan
  | .pinf, _ => .pinf
  | _, .pinf => .pinf
  | .ninf, _ => .ninf
  | _, .ninf => .ninf
  | .fin a, .fin b => .fin (a + b)

/-- IEEE subtraction (used for the max-shift inside softmax); `∞ - ∞ = NaN`. -/
def EF.sub : EF → EF → EF
  | .nan, _ => .nan
  | _, .nan => .nan
  | .pinf, .pinf => .nan
  | .ninf, .ninf => .nan
  | .pinf, _ => .pinf
  | .ninf, _ => .ninf
  | .fin _, .pinf => .ninf
  | .fin _, .ninf => .pinf
  | .fin a, .fin b => .fin (a - b)

/-- IEEE division (used for the softmax normalization): `∞/∞ = NaN`,
`x/∞ = 0`, `x/0 = ±∞` for `x ≠ 0` and `0/0 = NaN`. -/
def EF.div : EF → EF → EF
  | .nan, _ => .nan
  | _, .nan => .nan
  | .pinf, .pinf => .nan
  | .pinf, .ninf => .nan
  | .ninf, .pinf => .nan
  | .ninf, .ninf => .nan
  | .pinf, .fin b => if 0 ≤ b then .pinf else .ninf
  | .ninf, .fin b => if 0 ≤ b then .ninf else .pinf
  | .fin _, .pinf => .fin 0
  | .fin _, .ninf => .fin 0
  | .fin a, .fin b =>
    if b = 0 then (if a = 0 then .nan else if 0 < a then .pinf else .ninf)
    else .fin (a / b)

/-- Elementwise binary maximum, NaN-propagating (torch reduction semantics). -/
def EF.max2 : EF → EF → EF
  | .nan, _ => .nan
  | _, .nan => .nan
  | .pinf, _ => .pinf
  | _, .pinf => .pinf
  | .ninf, y => y
  | x, .ninf => x
  | .fin a, .fin b => .fin (max a b)

/-- Exponential on extended values: `exp(-∞) = 0`, `exp(∞) = ∞`, NaN
propagates; on finite values the supplied surrogate `e` is used. -/
def EF.expE (e : ℚ → ℚ) : EF → EF
  | .nan => .nan
  | .pinf => .pinf
  | .ninf => .fin 0
  | .fin q => .fin (e q)

/-- torch.softmax over the last dimension, as computed: subtract the running
maximum, exponentiate, normalize by the sum.  On an all-`-∞` vector this
yields NaN everywhere (`-∞ - -∞ = NaN`), matching torch. -/
def softmaxEF (e : ℚ → ℚ) (l : List EF) : List EF :=
  let m := l.foldl EF.max2 EF.ninf
  let exps := l.map (fun x => (x.sub m).expE e)
  let s := exps.foldl EF.add (EF.fin 0)
  exps.map (fun x => x.div s)

/-- Insert into a descending-sorted list of (value, original index) pairs;
the comparison treats NaN as the largest value, like torch's sort/topk. -/
def insertDescIdx (p : EF × Nat) : List (EF × Nat) → List (EF × Nat)
  | [] => [p]
  | q :: qs => if EF.ltB q.1 p.1 || p.1.isNaN && !q.1.isNaN then
      p :: q :: qs
    else q :: insertDescIdx p qs

/-- torch.sort(descending=True) returning (value, original index) pairs. -/
def sortDescIdx : List (EF × Nat) → List (EF × Nat)
  | [] => []
  | p :: ps => insertDescIdx p (sortDescIdx ps)

/-- Descending sort of the values only (used for the topk threshold). -/
def sortDescEF (l : List EF) : List EF :=
  (sortDescIdx (l.enum.map (fun p => (p.2, p.1)))).map Prod.fst

/-- Top-k filtering, lines 90-92: every logit strictly below the k-th
largest value becomes `-∞`; `torch.topk` raises when `k` exceeds the vector
length (modelled as an error). -/
def topkFilter (k : Nat) (l : List EF) : Except String (List EF) :=
  match (sortDescEF l).get? (k - 1) with
  | none => .error "selected index k out of range"
  | some thr => .ok (l.map (fun x => if EF.ltB x thr then EF.ninf else x))

/-- Running cumulative sum (torch.cumsum). -/
def cumsumEF : EF → List EF → List EF
  | _, [] => []
  | acc, x :: xs => let s := acc.add x; s :: cumsumEF s xs

/-- Nucleus (top-p) filtering, lines 95-105: sort descending, take the
cumulative softmax, mark entries past the threshold, shift the mask right by
one so the top entry always survives (lines 101-102), scatter the mask back
through the sort permutation (line 104) and set the marked logits to `-∞`. -/
def toppFilter (e : ℚ → ℚ) (p : ℚ) (l : List EF) : List EF :=
  let sorted := sortDescIdx (l.enum.map (fun q => (q.2, q.1)))
  let cum := cumsumEF (EF.fin 0) (softmaxEF e (sorted.map Prod.fst))
  let mask := cum.map (fun c => c.gtQ p)
  let mask := false :: mask.dropLast
  let removed := (mask.zip (sorted.map Prod.snd)).filterMap
    (fun mi => if mi.1 then some mi.2 else none)
  l.mapIdx (fun i x => if removed.contains i then EF.ninf else x)

/-- torch.multinomial(probs, 1): raises when the probability vector contains
NaN, an infinity or a negative entry, or when no entry is positive;
otherwise draws an index carrying positive probability.  The draw is
modelled by a seed choosing among the positive-probability indices. -/
def multinomialOne (seed : Nat) (probs : List EF) : Except String Nat :=
  if probs.any (fun x => x.isNaN || x.isInfEF ||
      (match x with | .fin q => decide (q < 0) | _ => false)) then
    .error "probability tensor contains either inf, nan or element < 0"
  else
    let support := probs.enum.filterMap
      (fun p => match p.2 with
        | .fin q => if 0 < q then some p.1 else none
        | _ => none)
    match support with
    | [] => .error "invalid multinomial distribution"
    | s :: ss => .ok ((s :: ss).getD (seed % (s :: ss).length) 0)

/-- The inline sampling pipeline of lines 80-117: clamp when any logit is
NaN or infinite (lines 81-83), temperature scaling (lines 86-87), top-k
(lines 90-92), top-p (lines 95-105), the all-`-∞` fallback which re-runs
the (deterministic) forward pass and re-applies only the temperature —
without re-clamping — (lines 107-113), softmax and the multinomial draw
(lines 116-117). -/
def sampleStep (e : ℚ → ℚ) (temperature topP : ℚ) (topK seed : Nat)
    (rawLogits : List EF) : Except String Nat :=
  let logits := if rawLogits.any EF.isNaN || rawLogits.any EF.isInfEF then
      rawLogits.map (EF.clamp (-100) 100)
    else rawLogits
  let logits := if 0 < temperature ∧ temperature ≠ 1 then
      logits.map (EF.divQ temperature)
    else logits
  let fallback := if 0 < temperature ∧ temperature ≠ 1 then
      rawLogits.map (EF.divQ temperature)
    else rawLogits
  match (if 0 < topK then topkFilter topK logits else .ok logits) with
  | .error m => .error m
  | .ok l1 =>
    let l2 := if topP < 1 then toppFilter e topP l1 else l1
    let l3 := if l2.all (fun x => x = EF.ninf) then fallback else l2
    multinomialOne seed (softmaxEF e l3)

/-!
Structural lemmas about the loop body and the loop.
-/

/-- Shape of one loop iteration: an exception yields no events, the EOS
`break` yields exactly the `done` frame, and a fall-through iteration yields
no event or exactly one partial/complete frame. -/
lemma genStep_shape (cfg : GenConfig) (decode : Bool → List Nat → Except String String)
    (tok : Except String Nat) (step : Nat) (st : GenState) :
    (∃ m, (genStep cfg decode tok step st).1 = [] ∧
      (genStep cfg decode tok step st).2.2 = .exn m) ∨
    ((genStep cfg decode tok step st).1 = [.done] ∧
      (genStep cfg decode tok step st).2.2 = .brk) ∨
    ((genStep cfg decode tok step st).2.2 = .next ∧
      ((genStep cfg decode tok step st).1 = [] ∨
       ∃ txt, (genStep cfg decode tok step st).1 = [.thinkingComplete txt] ∨
              (genStep cfg decode tok step st).1 = [.thinking txt] ∨
              (genStep cfg decode tok step st).1 = [.response txt])) := by
  unfold genStep
  rcases tok with m | t
  · exact Or.inl ⟨m, rfl, rfl⟩
  · simp only
    split
    · exact Or.inl ⟨_, rfl, rfl⟩
    · split
      · exact Or.inr (Or.inl ⟨rfl, rfl⟩)
      · split
        · split
          · exact Or.inl ⟨_, rfl, rfl⟩
          · exact Or.inr (Or.inr ⟨rfl, Or.inr ⟨_, Or.inl rfl⟩⟩)
        · split
          · split
            · split
              · exact Or.inl ⟨_, rfl, rfl⟩
              · exact Or.inr (Or.inr ⟨rfl, Or.inr ⟨_, Or.inr (Or.inl rfl)⟩⟩)
            · exact Or.inr (Or.inr ⟨rfl, Or.inl rfl⟩)
          · split
            · split
              · exact Or.inl ⟨_, rfl, rfl⟩
              · exact Or.inr (Or.inr ⟨rfl, Or.inr ⟨_, Or.inr (Or.inr rfl)⟩⟩)
            · exact Or.inr (Or.inr ⟨rfl, Or.inl rfl⟩)

/-- No iteration ever yields an error frame: error frames come only from the
`except` handler and the model-loaded guard. -/
lemma genStep_no_error (cfg : GenConfig) (decode : Bool → List Nat → Except String String)
    (tok : Except String Nat) (step : Nat) (st : GenState) :
    ∀ e ∈ (genStep cfg decode tok step st).1, isErrEv e = false := by
  rcases genStep_shape cfg decode tok step st with ⟨m, h, _⟩ | ⟨h, _⟩ | ⟨_, h | ⟨txt, h | h | h⟩⟩ <;>
    rw [h] <;> intro e he <;> simp at he <;> subst he <;> rfl

/-- An iteration yields the `done` frame exactly when it breaks. -/
lemma genStep_done_iff_brk (cfg : GenConfig) (decode : Bool → List Nat → Except String String)
    (tok : Except String Nat) (step : Nat) (st : GenState) :
    ((genStep cfg decode tok step st).2.2 = .brk ∧
        (genStep cfg decode tok step st).1 = [.done]) ∨
    ((genStep cfg decode tok step st).2.2 ≠ .brk ∧
        ∀ e ∈ (genStep cfg decode tok step st).1, isDoneEv e = false) := by
  rcases genStep_shape cfg decode tok step st with ⟨m, h, hx⟩ | ⟨h, hx⟩ | ⟨hx, h | ⟨txt, h | h | h⟩⟩
  · exact Or.inr ⟨(by rw [hx]; intro hc; cases hc), (by rw [h]; intro e he; cases he)⟩
  · exact Or.inl ⟨hx, h⟩
  all_goals refine Or.inr ⟨(by rw [hx]; intro hc; cases hc), ?_⟩ <;>
    rw [h] <;> intro e he <;> simp at he <;> try subst he
  all_goals rfl

/-- The phase flag never returns to `true`: each iteration either keeps it or
turns it off (the transition of line 137). -/
lemma genStep_inThinking_le (cfg : GenConfig) (decode : Bool → List Nat → Except String String)
    (tok : Except String Nat) (step : Nat) (st : GenState) :
    (genStep cfg decode tok step st).2.1.inThinking ≤ st.inThinking := by
  unfold genStep
  rcases tok with m | t
  · exact le_refl _
  · simp only
    split
    · exact le_refl _
    · split
      · exact le_refl _
      · split
        · split
          · exact Bool.false_le _
          · exact Bool.false_le _
        · split
          · split
            · split
              · exact le_refl _
              · exact le_refl _
            · exact le_refl _
          · split
            · split
              · exact le_refl _
              · exact le_refl _
            · exact le_refl _

/-- Monotonicity of the phase flag along the whole loop. -/
lemma genLoop_inThinking_le (cfg : GenConfig) (decode : Bool → List Nat → Except String String)
    (toks : Nat → Except String Nat) :
    ∀ gas step st, (genLoop cfg decode toks step gas st).2.1.inThinking ≤ st.inThinking := by
  intro gas
  induction gas with
  | zero => intro step st; exact le_refl _
  | succ n ih =>
    intro step st
    have hmono := genStep_inThinking_le cfg decode (toks step) step st
    unfold genLoop
    cases hs : genStep cfg decode (toks step) step st with
    | mk evs rest =>
      rw [hs] at hmono
      cases rest with
      | mk st' res =>
        cases res with
        | next =>
          dsimp only
          have hloop := ih (step + 1) st'
          cases hl : genLoop cfg decode toks (step + 1) n st' with
          | mk evs2 rest2 =>
            rw [hl] at hloop
            cases rest2 with
            | mk st2 x => exact le_trans hloop hmono
        | brk => exact hmono
        | exn m => exact hmono

/-- Events of the whole loop: no error frame is ever yielded inside the
loop, at most one `done` frame is yielded, and a loop that did not exit
through the EOS `break` yielded no `done` frame at all. -/
lemma genLoop_events (cfg : GenConfig) (decode : Bool → List Nat → Except String String)
    (toks : Nat → Except String Nat) :
    ∀ gas step st,
      (∀ e ∈ (genLoop cfg decode toks step gas st).1, isErrEv e = false) ∧
      ((genLoop cfg decode toks step gas st).1.filter isDoneEv).length ≤ 1 ∧
      ((genLoop cfg decode toks step gas st).2.2 ≠ LoopExit.eosBreak →
        ∀ e ∈ (genLoop cfg decode toks step gas st).1, isDoneEv e = false) := by
  intro gas
  induction gas with
  | zero =>
    intro step st
    exact ⟨fun e he => absurd he (List.not_mem_nil e), Nat.zero_le 1,
      fun _ e he => absurd he (List.not_mem_nil e)⟩
  | succ n ih =>
    intro step st
    have hne := genStep_no_error cfg decode (toks step) step st
    have hdn := genStep_done_iff_brk cfg decode (toks step) step st
    have hsh := genStep_shape cfg decode (toks step) step st
    unfold genLoop
    cases hs : genStep cfg decode (toks step) step st with
    | mk evs rest =>
      rw [hs] at hne hdn hsh
      cases rest with
      | mk st' res =>
        cases res with
        | next =>
          dsimp only
          obtain ⟨hrec1, hrec2, hrec3⟩ := ih (step + 1) st'
          cases hl : genLoop cfg decode toks (step + 1) n st' with
          | mk evs2 rest2 =>
            rw [hl] at hrec1 hrec2 hrec3
            cases rest2 with
            | mk st2 x =>
              dsimp only at hne hdn hrec1 hrec2 hrec3 ⊢
              have hdfree : ∀ e ∈ evs, isDoneEv e = false := by
                rcases hdn with ⟨hb, _⟩ | ⟨_, h⟩
                · cases hb
                · exact h
              refine ⟨?_, ?_, ?_⟩
              · intro e he
                rcases List.mem_append.mp he with h | h
                · exact hne e h
                · exact hrec1 e h
              · rw [List.filter_append, List.length_append]
                have hnil : evs.filter isDoneEv = [] :=
                  List.filter_eq_nil_iff.mpr (fun a ha => by simp [hdfree a ha])
                rw [hnil]
                simpa using hrec2
              · intro hx e he
                rcases List.mem_append.mp he with h | h
                · exact hdfree e h
                · exact hrec3 hx e h
        | brk =>
          dsimp only at hne hdn ⊢
          rcases hdn with ⟨_, hevs⟩ | ⟨hb, _⟩
          · rw [hevs]
            refine ⟨?_, Nat.le_refl 1, ?_⟩
            · intro e he
              simp at he
              rw [he]
              rfl
            · intro hx
              exact absurd rfl hx
          · exact absurd rfl hb
        | exn m =>
          dsimp only at hsh ⊢
          rcases hsh with ⟨m', hevs, _⟩ | ⟨_, hx⟩ | ⟨hx, _⟩
          · rw [hevs]
            exact ⟨fun e he => absurd he (List.not_mem_nil e), Nat.zero_le 1,
              fun _ e he => absurd he (List.not_mem_nil e)⟩
          · cases hx
          · cases hx

/-- A buffer-flush expression of the finalization (lines 165-175) yields on
success only frames built by its constructor. -/
lemma flush_no_terminal (mk : String → StreamEvent) (dx : Except String String)
    (cond : Bool) (evs : List StreamEvent)
    (hmk : ∀ txt, isDoneEv (mk txt) = false ∧ isErrEv (mk txt) = false)
    (h : (if cond then dx.map (fun txt => [mk txt]) else .ok []) = .ok evs) :
    ∀ e ∈ evs, isDoneEv e = false ∧ isErrEv e = false := by
  split at h
  · cases dx with
    | error m => cases h
    | ok txt =>
      injection h with h'
      subst h'
      intro e he
      simp at he
      rw [he]
      exact hmk txt
  · injection h with h'
    subst h'
    intro e he
    cases he

/-- The finalization (lines 164-175) yields only `thinking_complete` and
`response_complete` frames: never `done`, never an error frame. -/
lemma finalize_events (cfg : GenConfig) (decode : Bool → List Nat → Except String String)
    (st : GenState) :
    ∀ e ∈ (finalize cfg decode st).1, isDoneEv e = false ∧ isErrEv e = false := by
  unfold finalize
  split
  · intro e he
    cases he
  · rename_i evs1 h1
    have hm1 := flush_no_terminal StreamEvent.thinkingComplete
      (decode true st.thinkingBuffer) (st.inThinking && !st.thinkingBuffer.isEmpty)
      evs1 (fun txt => ⟨rfl, rfl⟩) h1
    split
    · exact hm1
    · rename_i evs2 h2
      have hm2 := flush_no_terminal StreamEvent.responseComplete
        (decode true st.responseBuffer) (!st.responseBuffer.isEmpty)
        evs2 (fun txt => ⟨rfl, rfl⟩) h2
      have hboth : ∀ e ∈ evs1 ++ evs2, isDoneEv e = false ∧ isErrEv e = false := by
        intro e he
        rcases List.mem_append.mp he with h | h
        · exact hm1 e h
        · exact hm2 e h
      split
      · exact hboth
      · split
        · exact hboth
        · exact hboth

/-- The debug decode of lines 125-127 succeeds whenever the single-token
decode does (and trivially from step 10 on). -/
lemma dbg_ok (decode : Bool → List Nat → Except String String) (step t : Nat)
    (s : String) (h : decode false [t] = .ok s) :
    ∃ s', (if step < 10 then decode false [t] else Except.ok "") = .ok s' := by
  split
  · exact ⟨s, h⟩
  · exact ⟨"", rfl⟩

/-!
Claim theorems.
-/

/-- C5 (confirmed): at a generation step whose sampled token equals the
end-of-sequence marker, the loop yields exactly the `done` frame and
terminates immediately: neither phase buffer is touched and the phase flag
is unchanged, while the EOS token is still appended to the running full id
sequence (the append of line 120 precedes the check of line 130). -/
theorem eos_emits_done_and_breaks (cfg : GenConfig)
    (decode : Bool → List Nat → Except String String)
    (toks : Nat → Except String Nat) (step gas : Nat) (st : GenState) (s : String)
    (htok : toks step = .ok cfg.eosTokenId)
    (hdec : decode false [cfg.eosTokenId] = .ok s) :
    genLoop cfg decode toks step (gas + 1) st =
      ([.done], { st with generatedIds := st.generatedIds ++ [cfg.eosTokenId] },
        .eosBreak) := by
  obtain ⟨s', hs'⟩ := dbg_ok decode step cfg.eosTokenId s hdec
  have hstep : genStep cfg decode (toks step) step st =
      ([.done], { st with generatedIds := st.generatedIds ++ [cfg.eosTokenId] },
        .brk) := by
    rw [htok]
    unfold genStep
    dsimp only
    rw [hs']
    simp
  unfold genLoop
  rw [hstep]

/-- C5 witness: a concrete EOS step. -/
theorem eos_emits_done_and_breaks_witness :
    genLoop
      { eosTokenId := 7, thinkingTokenId := 8, enableThinking := true,
        maxNewTokens := 4, conversationId := 1 }
      (fun _ _ => Except.ok "z") (fun _ => Except.ok 7) 2 3
      { generatedIds := [1], thinkingBuffer := [3], responseBuffer := [],
        inThinking := true } =
      ([.done],
       { generatedIds := [1, 7], thinkingBuffer := [3], responseBuffer := [],
         inThinking := true },
       .eosBreak) :=
  eos_emits_done_and_breaks
    { eosTokenId := 7, thinkingTokenId := 8, enableThinking := true,
      maxNewTokens := 4, conversationId := 1 }
    (fun _ _ => Except.ok "z") (fun _ => Except.ok 7) 2 2
    { generatedIds := [1], thinkingBuffer := [3], responseBuffer := [],
      inThinking := true } "z" rfl rfl

/-- C10 (confirmed): a thinking-end marker sampled while the phase is
already Responding (and distinct from EOS) is treated as an ordinary token:
it is appended to the response buffer — so it can appear in the decoded
response text — while the thinking buffer and the phase flag are unchanged.
The marker-exclusion of lines 136-143 only fires while `in_thinking` is
true. -/
theorem marker_in_responding_is_ordinary (cfg : GenConfig)
    (decode : Bool → List Nat → Except String String) (step : Nat) (st : GenState)
    (s : String)
    (hresp : st.inThinking = false)
    (hne : cfg.thinkingTokenId ≠ cfg.eosTokenId)
    (hdec : decode false [cfg.thinkingTokenId] = .ok s) :
    (genStep cfg decode (.ok cfg.thinkingTokenId) step st).2.1 =
      { st with generatedIds := st.generatedIds ++ [cfg.thinkingTokenId],
                responseBuffer := st.responseBuffer ++ [cfg.thinkingTokenId] } := by
  obtain ⟨s', hs'⟩ := dbg_ok decode step cfg.thinkingTokenId s hdec
  unfold genStep
  dsimp only
  rw [hs']
  dsimp only
  rw [if_neg hne, if_neg (by simp [hresp]), if_neg (by simp [hresp])]
  split
  · split
    · rfl
    · rfl
  · rfl

/-- C10 witness: a concrete marker token arriving in the Responding phase. -/
theorem marker_in_responding_is_ordinary_witness :
    (genStep
      { eosTokenId := 7, thinkingTokenId := 8, enableThinking := true,
        maxNewTokens := 4, conversationId := 1 }
      (fun _ _ => Except.ok "z") (.ok 8) 3
      { generatedIds := [1], thinkingBuffer := [3], responseBuffer := [4],
        inThinking := false }).2.1 =
      { generatedIds := [1, 8], thinkingBuffer := [3], responseBuffer := [4, 8],
        inThinking := false } :=
  marker_in_responding_is_ordinary
    { eosTokenId := 7, thinkingTokenId := 8, enableThinking := true,
      maxNewTokens := 4, conversationId := 1 }
    (fun _ _ => Except.ok "z") 3
    { generatedIds := [1], thinkingBuffer := [3], responseBuffer := [4],
      inThinking := false } "z" rfl (by decide) rfl

/-- C1 counterexample: with thinking disabled the claim says the initial
phase is Responding and every non-EOS token lands in the response buffer;
in the code `in_thinking = True` unconditionally (line 63), so with
`enable_thinking = False` the very first generated non-EOS token (5) ends
up in the thinking buffer and the response buffer stays empty. -/
theorem disabled_thinking_first_token_in_thinking_buffer :
    (genLoop
      { eosTokenId := 151645, thinkingTokenId := 151668, enableThinking := false,
        maxNewTokens := 1, conversationId := 1 }
      (fun _ _ => Except.ok "x") (fun _ => Except.ok 5) 0 1 (initState [])).2.1 =
      { generatedIds := [5], thinkingBuffer := [5], responseBuffer := [],
        inThinking := true } := by
  rfl

/-- C1 (corrected): the streaming controller's initial phase is Thinking
regardless of the thinking-enabled flag (line 63 ignores
`enable_thinking`), and a first non-EOS, non-marker token is appended to
the thinking buffer — not the response buffer — even when thinking is
disabled; the phase-transition marker is still awaited in that case. -/
theorem initial_phase_always_thinking (promptIds : List Nat) :
    (initState promptIds).inThinking = true ∧
    (∀ (cfg : GenConfig) (decode : Bool → List Nat → Except String String)
        (step t : Nat) (s : String),
      decode false [t] = Except.ok s → t ≠ cfg.eosTokenId → t ≠ cfg.thinkingTokenId →
      (genStep cfg decode (.ok t) step (initState promptIds)).2.1.thinkingBuffer = [t] ∧
      (genStep cfg decode (.ok t) step (initState promptIds)).2.1.responseBuffer = []) := by
  refine ⟨rfl, ?_⟩
  intro cfg decode step t s hdec hne hnm
  obtain ⟨s', hs'⟩ := dbg_ok decode step t s hdec
  unfold genStep
  dsimp only
  rw [hs']
  dsimp only
  rw [if_neg hne, if_neg (by simp [initState, hnm]), if_pos (by rfl)]
  split
  · split
    · exact ⟨rfl, rfl⟩
    · exact ⟨rfl, rfl⟩
  · exact ⟨rfl, rfl⟩

/-- C1 amended-claim witness: a concrete run with thinking disabled. -/
theorem initial_phase_always_thinking_witness :
    (initState [2]).inThinking = true ∧
    (genStep
      { eosTokenId := 151645, thinkingTokenId := 151668, enableThinking := false,
        maxNewTokens := 1, conversationId := 1 }
      (fun _ _ => Except.ok "x") (.ok 5) 0 (initState [2])).2.1.thinkingBuffer = [5] ∧
    (genStep
      { eosTokenId := 151645, thinkingTokenId := 151668, enableThinking := false,
        maxNewTokens := 1, conversationId := 1 }
      (fun _ _ => Except.ok "x") (.ok 5) 0 (initState [2])).2.1.responseBuffer = [] := by
  refine ⟨(initial_phase_always_thinking [2]).1, ?_, ?_⟩
  · exact ((initial_phase_always_thinking [2]).2
      { eosTokenId := 151645, thinkingTokenId := 151668, enableThinking := false,
        maxNewTokens := 1, conversationId := 1 }
      (fun _ _ => Except.ok "x") 0 5 "x" rfl (by decide) (by decide)).1
  · exact ((initial_phase_always_thinking [2]).2
      { eosTokenId := 151645, thinkingTokenId := 151668, enableThinking := false,
        maxNewTokens := 1, conversationId := 1 }
      (fun _ _ => Except.ok "x") 0 5 "x" rfl (by decide) (by decide)).2

/-- C4 (code_bug): the sampling pipeline raises on NaN logits.  With logits
`[NaN, 0, 1, …, 18]`, temperature 0.6, top_k 20 and top_p 0.95, the clamp
of lines 81-83 does not remove the NaN (`torch.clamp` propagates NaN), the
top-k and top-p masks never select the NaN position (IEEE comparisons with
NaN are false), so softmax turns the whole probability vector into NaN and
`torch.multinomial` raises — the code's own comment claims the clamp
handles NaN.  With the infinities `[+∞, -∞, 0, …, 17]` the clamp works and
a valid in-range index is drawn. -/
theorem sample_nan_raises_inf_ok :
    sampleStep (fun _ => 1) ((3:ℚ)/5) ((19:ℚ)/20) 20 0
        (EF.nan :: (List.range 19).map (fun i => EF.fin (i : ℚ))) =
      Except.error "probability tensor contains either inf, nan or element < 0" ∧
    sampleStep (fun _ => 1) ((3:ℚ)/5) ((19:ℚ)/20) 20 0
        (EF.pinf :: EF.ninf :: (List.range 18).map (fun i => EF.fin (i : ℚ))) =
      Except.ok 0 :=
  ⟨by with_unfolding_all rfl, by with_unfolding_all rfl⟩

/-- C9 (confirmed): at every step, either both phase buffers are unchanged
(EOS, marker transition, or an exception before the append), or exactly one
of them grows by exactly the sampled token, the growing buffer being
determined by the current phase; and the phase flag is monotone — it moves
from Thinking to Responding at most once and never back, both per step and
along the whole loop. -/
theorem single_buffer_growth_and_phase_monotone (cfg : GenConfig)
    (decode : Bool → List Nat → Except String String) (step : Nat) (st : GenState) :
    (∀ tok, (genStep cfg decode tok step st).2.1.inThinking ≤ st.inThinking) ∧
    (∀ t : Nat,
      ((genStep cfg decode (.ok t) step st).2.1.thinkingBuffer = st.thinkingBuffer ∧
       (genStep cfg decode (.ok t) step st).2.1.responseBuffer = st.responseBuffer) ∨
      (st.inThinking = true ∧
       (genStep cfg decode (.ok t) step st).2.1.thinkingBuffer = st.thinkingBuffer ++ [t] ∧
       (genStep cfg decode (.ok t) step st).2.1.responseBuffer = st.responseBuffer) ∨
      (st.inThinking = false ∧
       (genStep cfg decode (.ok t) step st).2.1.responseBuffer = st.responseBuffer ++ [t] ∧
       (genStep cfg decode (.ok t) step st).2.1.thinkingBuffer = st.thinkingBuffer)) ∧
    (∀ (toks : Nat → Except String Nat) (gas : Nat) (st0 : GenState),
      (genLoop cfg decode toks step gas st0).2.1.inThinking ≤ st0.inThinking) := by
  refine ⟨fun tok => genStep_inThinking_le cfg decode tok step st, ?_,
    fun toks gas st0 => genLoop_inThinking_le cfg decode toks gas step st0⟩
  intro t
  unfold genStep
  dsimp only
  split
  · exact Or.inl ⟨rfl, rfl⟩
  · split
    · exact Or.inl ⟨rfl, rfl⟩
    · split
      · split
        · exact Or.inl ⟨rfl, rfl⟩
        · exact Or.inl ⟨rfl, rfl⟩
      · split
        · rename_i hth
          refine Or.inr (Or.inl ⟨hth, ?_, ?_⟩)
          · split
            · split
              · rfl
              · rfl
            · rfl
          · split
            · split
              · rfl
              · rfl
            · rfl
        · rename_i hth
          have hfl : st.inThinking = false := by
            cases hst : st.inThinking
            · rfl
            · exact absurd hst hth
          refine Or.inr (Or.inr ⟨hfl, ?_, ?_⟩)
          · split
            · split
              · rfl
              · rfl
            · rfl
          · split
            · split
              · rfl
              · rfl
            · rfl

/-- Invariant backing C2: while the phase is Thinking, the reserved marker
id occurs in neither phase buffer. -/
def markerFree (cfg : GenConfig) (st : GenState) : Prop :=
  st.inThinking = true →
    cfg.thinkingTokenId ∉ st.thinkingBuffer ∧ cfg.thinkingTokenId ∉ st.responseBuffer

/-- One step preserves `markerFree`: the marker is only appended in the
Responding phase, and a thinking-phase append concerns a non-marker token. -/
lemma genStep_markerFree (cfg : GenConfig)
    (decode : Bool → List Nat → Except String String)
    (tok : Except String Nat) (step : Nat) (st : GenState)
    (h : markerFree cfg st) : markerFree cfg (genStep cfg decode tok step st).2.1 := by
  unfold genStep
  rcases tok with m | t
  · exact h
  · dsimp only
    split
    · exact h
    · split
      · exact h
      · split
        · have key : markerFree cfg
              { st with generatedIds := st.generatedIds ++ [t], inThinking := false } := by
            intro hfalse
            exact absurd hfalse (by simp)
          split
          · exact key
          · exact key
        · split
          · rename_i hnm hth
            have key : markerFree cfg
                { st with generatedIds := st.generatedIds ++ [t],
                          thinkingBuffer := st.thinkingBuffer ++ [t] } := by
              intro _
              have hmem := h hth
              have hnet : t ≠ cfg.thinkingTokenId := fun he => hnm ⟨he, hth⟩
              refine ⟨?_, hmem.2⟩
              intro hmem2
              rcases List.mem_append.mp hmem2 with hh | hh
              · exact hmem.1 hh
              · simp at hh
                exact hnet hh.symm
            split
            · split
              · exact key
              · exact key
            · exact key
          · rename_i hnm hth
            have key : markerFree cfg
                { st with generatedIds := st.generatedIds ++ [t],
                          responseBuffer := st.responseBuffer ++ [t] } := by
              intro hflag
              exact absurd hflag hth
            split
            · split
              · exact key
              · exact key
            · exact key

/-- The whole loop preserves `markerFree`. -/
lemma genLoop_markerFree (cfg : GenConfig)
    (decode : Bool → List Nat → Except String String)
    (toks : Nat → Except String Nat) :
    ∀ gas step st, markerFree cfg st →
      markerFree cfg (genLoop cfg decode toks step gas st).2.1 := by
  intro gas
  induction gas with
  | zero => intro step st h; exact h
  | succ n ih =>
    intro step st h
    have hstep := genStep_markerFree cfg decode (toks step) step st h
    unfold genLoop
    cases hs : genStep cfg decode (toks step) step st with
    | mk evs rest =>
      rw [hs] at hstep
      cases rest with
      | mk st' res =>
        cases res with
        | next =>
          dsimp only
          have hrec := ih (step + 1) st' hstep
          cases hl : genLoop cfg decode toks (step + 1) n st' with
          | mk evs2 rest2 =>
            rw [hl] at hrec
            cases rest2 with
            | mk st2 x => exact hrec
        | brk => exact hstep
        | exn m => exact hstep

/-- C2 (confirmed): when the sampled token equals the reserved thinking-end
marker while the phase is Thinking (and is not EOS), the step yields
exactly one `thinking_complete` frame carrying the decode of the whole
thinking buffer, flips the phase to Responding, appends the marker to
neither phase buffer (only to the running id sequence), and falls through
to the next step; moreover `markerFree` — the marker is absent from both
buffers while the phase is Thinking — is preserved by every step and by
the whole loop. -/
theorem thinking_end_marker_transition (cfg : GenConfig)
    (decode : Bool → List Nat → Except String String) (step : Nat) (st : GenState)
    (s txt : String)
    (hthink : st.inThinking = true)
    (hne : cfg.thinkingTokenId ≠ cfg.eosTokenId)
    (hdbg : decode false [cfg.thinkingTokenId] = .ok s)
    (hdec : decode true st.thinkingBuffer = .ok txt) :
    genStep cfg decode (.ok cfg.thinkingTokenId) step st =
      ([.thinkingComplete txt],
       { st with generatedIds := st.generatedIds ++ [cfg.thinkingTokenId],
                 inThinking := false },
       .next) ∧
    (∀ (tok : Except String Nat) (step2 : Nat) (st2 : GenState),
      markerFree cfg st2 → markerFree cfg (genStep cfg decode tok step2 st2).2.1) ∧
    (∀ (toks : Nat → Except String Nat) (gas step2 : Nat) (st2 : GenState),
      markerFree cfg st2 → markerFree cfg (genLoop cfg decode toks step2 gas st2).2.1) ∧
    (∀ promptIds, markerFree cfg (initState promptIds)) := by
  refine ⟨?_, fun tok step2 st2 h => genStep_markerFree cfg decode tok step2 st2 h,
    fun toks gas step2 st2 h => genLoop_markerFree cfg decode toks gas step2 st2 h,
    fun promptIds _ => ⟨List.not_mem_nil cfg.thinkingTokenId,
      List.not_mem_nil cfg.thinkingTokenId⟩⟩
  obtain ⟨s2, hs2⟩ := dbg_ok decode step cfg.thinkingTokenId s hdbg
  unfold genStep
  dsimp only
  rw [hs2]
  dsimp only
  rw [if_neg hne, if_pos ⟨rfl, hthink⟩]
  rw [show decode true st.thinkingBuffer = Except.ok txt from hdec]

/-- C2 witness: a concrete marker step in the Thinking phase. -/
theorem thinking_end_marker_transition_witness :
    genStep
      { eosTokenId := 7, thinkingTokenId := 8, enableThinking := true,
        maxNewTokens := 4, conversationId := 1 }
      (fun _ _ => Except.ok "z") (.ok 8) 3
      { generatedIds := [1], thinkingBuffer := [3], responseBuffer := [],
        inThinking := true } =
      ([.thinkingComplete "z"],
       { generatedIds := [1, 8], thinkingBuffer := [3], responseBuffer := [],
         inThinking := false },
       .next) :=
  (thinking_end_marker_transition
    { eosTokenId := 7, thinkingTokenId := 8, enableThinking := true,
      maxNewTokens := 4, conversationId := 1 }
    (fun _ _ => Except.ok "z") 3
    { generatedIds := [1], thinkingBuffer := [3], responseBuffer := [],
      inThinking := true }
    "z" "z" rfl (by decide) rfl rfl).1

/-- C8 (confirmed): after a thinking-phase append the `thinking` frame is
emitted exactly when the new thinking-buffer length is a multiple of 5 or
the step index is 0, and after a response-phase append the `response` frame
is emitted exactly when the new response-buffer length is a multiple of 3
or the step index is 0; every emitted partial text is the decode of the
entire accumulated buffer of that phase. -/
theorem emission_cadence (cfg : GenConfig)
    (decode : Bool → List Nat → Except String String) (step t : Nat) (s : String)
    (hdbg : decode false [t] = .ok s) (hne : t ≠ cfg.eosTokenId) :
    (∀ (st : GenState) (txt : String), st.inThinking = true →
      t ≠ cfg.thinkingTokenId →
      decode true (st.thinkingBuffer ++ [t]) = .ok txt →
      genStep cfg decode (.ok t) step st =
        ((if (st.thinkingBuffer ++ [t]).length % 5 = 0 ∨ step = 0
            then [StreamEvent.thinking txt] else []),
         { st with generatedIds := st.generatedIds ++ [t],
                   thinkingBuffer := st.thinkingBuffer ++ [t] },
         .next)) ∧
    (∀ (st : GenState) (txt : String), st.inThinking = false →
      decode true (st.responseBuffer ++ [t]) = .ok txt →
      genStep cfg decode (.ok t) step st =
        ((if (st.responseBuffer ++ [t]).length % 3 = 0 ∨ step = 0
            then [StreamEvent.response txt] else []),
         { st with generatedIds := st.generatedIds ++ [t],
                   responseBuffer := st.responseBuffer ++ [t] },
         .next)) := by
  constructor
  · intro st txt hth hnm hdec
    obtain ⟨s2, hs2⟩ := dbg_ok decode step t s hdbg
    unfold genStep
    dsimp only
    rw [hs2]
    dsimp only
    rw [if_neg hne, if_neg (by simp [hnm]), if_pos hth]
    split
    · rw [show decode true (st.thinkingBuffer ++ [t]) = Except.ok txt from hdec]
    · rfl
  · intro st txt hfl hdec
    obtain ⟨s2, hs2⟩ := dbg_ok decode step t s hdbg
    unfold genStep
    dsimp only
    rw [hs2]
    dsimp only
    rw [if_neg hne, if_neg (by simp [hfl]), if_neg (by simp [hfl])]
    split
    · rw [show decode true (st.responseBuffer ++ [t]) = Except.ok txt from hdec]
    · rfl

/-- C8 witness: a thinking-phase append whose new length 5 triggers the
frame, and a response-phase append whose new length 2 (at step 3) does not. -/
theorem emission_cadence_witness :
    genStep
      { eosTokenId := 7, thinkingTokenId := 8, enableThinking := true,
        maxNewTokens := 9, conversationId := 1 }
      (fun _ _ => Except.ok "z") (.ok 5) 3
      { generatedIds := [9], thinkingBuffer := [1, 2, 3, 4], responseBuffer := [],
        inThinking := true } =
      ([StreamEvent.thinking "z"],
       { generatedIds := [9, 5], thinkingBuffer := [1, 2, 3, 4, 5],
         responseBuffer := [], inThinking := true },
       .next) ∧
    genStep
      { eosTokenId := 7, thinkingTokenId := 8, enableThinking := true,
        maxNewTokens := 9, conversationId := 1 }
      (fun _ _ => Except.ok "z") (.ok 5) 3
      { generatedIds := [9], thinkingBuffer := [], responseBuffer := [1],
        inThinking := false } =
      ([],
       { generatedIds := [9, 5], thinkingBuffer := [], responseBuffer := [1, 5],
         inThinking := false },
       .next) := by
  constructor
  · exact (emission_cadence
      { eosTokenId := 7, thinkingTokenId := 8, enableThinking := true,
        maxNewTokens := 9, conversationId := 1 }
      (fun _ _ => Except.ok "z") 3 5 "z" rfl (by decide)).1
      { generatedIds := [9], thinkingBuffer := [1, 2, 3, 4], responseBuffer := [],
        inThinking := true } "z" rfl (by decide) rfl
  · exact (emission_cadence
      { eosTokenId := 7, thinkingTokenId := 8, enableThinking := true,
        maxNewTokens := 9, conversationId := 1 }
      (fun _ _ => Except.ok "z") 3 5 "z" rfl (by decide)).2
      { generatedIds := [9], thinkingBuffer := [], responseBuffer := [1],
        inThinking := false } "z" rfl rfl

/-- The text assembled by `_save_message` agrees with the concatenation rule
of the specification: `thinking + "\\n\\n" + response` when both decoded
texts are non-empty, else whichever is non-empty, else the empty string. -/
lemma saveContent_spec (t r : String) :
    saveContent t r =
      (if t ≠ "" ∧ r ≠ "" then t ++ "\n\n" ++ r else if t ≠ "" then t else r) := by
  unfold saveContent
  by_cases ht : t = "" <;> by_cases hr : r = "" <;> simp [ht, hr]

/-- C6 (confirmed): whenever the finalization decodes succeed, the text
handed to the conversation store (when `conversation_id > 0`) is exactly
the spec formula over the two decoded buffer texts: both non-empty —
thinking, a blank line, response; one non-empty — that one; both empty —
the empty string. -/
theorem persisted_text_formula (cfg : GenConfig)
    (decode : Bool → List Nat → Except String String) (st : GenState)
    (ft fr : String)
    (hft : (if !st.thinkingBuffer.isEmpty then decode true st.thinkingBuffer
            else Except.ok "") = .ok ft)
    (hfr : (if !st.responseBuffer.isEmpty then decode true st.responseBuffer
            else Except.ok "") = .ok fr) :
    (finalize cfg decode st).2 =
      Except.ok (if 0 < cfg.conversationId then
          some (cfg.conversationId, "assistant",
            (if ft ≠ "" ∧ fr ≠ "" then ft ++ "\n\n" ++ fr
             else if ft ≠ "" then ft else fr))
        else none) := by
  unfold finalize
  cases htb : st.thinkingBuffer.isEmpty <;> cases hrb : st.responseBuffer.isEmpty <;>
      cases hthink : st.inThinking <;>
      rw [htb] at hft <;> rw [hrb] at hfr <;>
      simp at hft hfr
  all_goals first
    | (subst hft; subst hfr; simp [htb, hrb, hthink, saveContent_spec, Except.map])
    | (subst hft; simp [htb, hrb, hthink, hfr, saveContent_spec, Except.map])
    | (subst hfr; simp [htb, hrb, hthink, hft, saveContent_spec, Except.map])
    | simp [htb, hrb, hthink, hft, hfr, saveContent_spec, Except.map]

/-- C6 witness: one non-empty thinking buffer decoding to "T" and one
non-empty response buffer decoding to "R". -/
theorem persisted_text_formula_witness :
    (finalize
      { eosTokenId := 7, thinkingTokenId := 8, enableThinking := true,
        maxNewTokens := 4, conversationId := 1 }
      (fun _ l => Except.ok (if l = [3] then "T" else "R"))
      { generatedIds := [1], thinkingBuffer := [3], responseBuffer := [4],
        inThinking := false }).2 =
      Except.ok (some (1, "assistant", "T" ++ "\n\n" ++ "R")) := by
  have h := persisted_text_formula
    { eosTokenId := 7, thinkingTokenId := 8, enableThinking := true,
      maxNewTokens := 4, conversationId := 1 }
    (fun _ l => Except.ok (if l = [3] then "T" else "R"))
    { generatedIds := [1], thinkingBuffer := [3], responseBuffer := [4],
      inThinking := false }
    "T" "R" rfl rfl
  simpa using h

/-- C7 (confirmed): when the loop body raises (forward pass or decode), the
stream is the events yielded so far followed by exactly one error frame —
no error frame occurs earlier — and nothing is written to the conversation
store. -/
theorem loop_exception_single_error_no_save (cfg : GenConfig)
    (decode : Bool → List Nat → Except String String)
    (toks : Nat → Except String Nat) (promptIds : List Nat)
    (evs : List StreamEvent) (st : GenState) (m : String)
    (hrun : genLoop cfg decode toks 0 cfg.maxNewTokens (initState promptIds) =
      (evs, st, .exn m)) :
    (generateStream cfg true decode toks promptIds).events = evs ++ [.error m] ∧
    (generateStream cfg true decode toks promptIds).saved = none ∧
    ∀ e ∈ evs, isErrEv e = false := by
  have hfree := (genLoop_events cfg decode toks cfg.maxNewTokens 0 (initState promptIds)).1
  rw [hrun] at hfree
  unfold generateStream
  rw [hrun]
  exact ⟨rfl, rfl, hfree⟩

/-- C7 witness: the forward pass raises "boom" at step 0. -/
theorem loop_exception_single_error_no_save_witness :
    (generateStream
      { eosTokenId := 7, thinkingTokenId := 8, enableThinking := true,
        maxNewTokens := 2, conversationId := 1 }
      true (fun _ _ => Except.ok "x") (fun _ => Except.error "boom") []).events =
      [] ++ [.error "boom"] ∧
    (generateStream
      { eosTokenId := 7, thinkingTokenId := 8, enableThinking := true,
        maxNewTokens := 2, conversationId := 1 }
      true (fun _ _ => Except.ok "x") (fun _ => Except.error "boom") []).saved = none ∧
    ∀ e ∈ ([] : List StreamEvent), isErrEv e = false :=
  loop_exception_single_error_no_save
    { eosTokenId := 7, thinkingTokenId := 8, enableThinking := true,
      maxNewTokens := 2, conversationId := 1 }
    (fun _ _ => Except.ok "x") (fun _ => Except.error "boom") [] [] (initState []) "boom" rfl

/-- C3 counterexample: the claim says each stream has exactly one terminal
event with nothing after it; in this concrete run (token 5, then EOS, with
the thinking buffer non-empty) the `break` of line 133 still falls through
to the finalization of lines 164-175, so a `thinking_complete` frame is
yielded after the `done` frame. -/
theorem events_after_done_counterexample :
    (generateStream
      { eosTokenId := 151645, thinkingTokenId := 151668, enableThinking := true,
        maxNewTokens := 2, conversationId := 1 }
      true (fun _ _ => Except.ok "x")
      (fun s => Except.ok (if s = 0 then 5 else 151645)) []).events =
      [StreamEvent.thinking "x", StreamEvent.done, StreamEvent.thinkingComplete "x"] ∧
    StreamEvent.done ∈ (generateStream
      { eosTokenId := 151645, thinkingTokenId := 151668, enableThinking := true,
        maxNewTokens := 2, conversationId := 1 }
      true (fun _ _ => Except.ok "x")
      (fun s => Except.ok (if s = 0 then 5 else 151645)) []).events ∧
    (generateStream
      { eosTokenId := 151645, thinkingTokenId := 151668, enableThinking := true,
        maxNewTokens := 2, conversationId := 1 }
      true (fun _ _ => Except.ok "x")
      (fun s => Except.ok (if s = 0 then 5 else 151645)) []).events.getLast? =
      some (StreamEvent.thinkingComplete "x") := by
  refine ⟨rfl, ?_, rfl⟩
  rw [show (generateStream
      { eosTokenId := 151645, thinkingTokenId := 151668, enableThinking := true,
        maxNewTokens := 2, conversationId := 1 }
      true (fun _ _ => Except.ok "x")
      (fun s => Except.ok (if s = 0 then 5 else 151645)) []).events =
      [StreamEvent.thinking "x", StreamEvent.done, StreamEvent.thinkingComplete "x"] from rfl]
  simp

/-- A list whose members all fail the predicate filters to the empty list. -/
lemma filter_nil_of_false (p : StreamEvent → Bool) (l : List StreamEvent)
    (h : ∀ e ∈ l, p e = false) : l.filter p = [] :=
  List.filter_eq_nil_iff.mpr (fun a ha => by simp [h a ha])

/-- In a list of error-free events followed by one error frame, any error
member is that final frame. -/
lemma error_last_of_append (l : List StreamEvent) (m : String)
    (h : ∀ e ∈ l, isErrEv e = false) :
    ∀ m', StreamEvent.error m' ∈ l ++ [StreamEvent.error m] →
      (l ++ [StreamEvent.error m]).getLast? = some (StreamEvent.error m') := by
  intro m' hm'
  rcases List.mem_append.mp hm' with hh | hh
  · have hc := h _ hh
    simp [isErrEv] at hc
  · simp at hh
    rw [hh]
    exact List.getLast?_concat l

/-- C3 (corrected): every stream contains at most one `done` frame and at
most one error frame; an error frame, when present, is the final frame.
(`done` need not be final: finalization frames — and an error frame when a
finalization decode fails — may follow it, and a run that exhausts the step
limit without EOS or exception ends with neither terminal frame.) -/
theorem terminal_event_structure (cfg : GenConfig) (modelLoaded : Bool)
    (decode : Bool → List Nat → Except String String)
    (toks : Nat → Except String Nat) (promptIds : List Nat) :
    (((generateStream cfg modelLoaded decode toks promptIds).events.filter isDoneEv).length ≤ 1) ∧
    (((generateStream cfg modelLoaded decode toks promptIds).events.filter isErrEv).length ≤ 1) ∧
    (∀ m, StreamEvent.error m ∈ (generateStream cfg modelLoaded decode toks promptIds).events →
      (generateStream cfg modelLoaded decode toks promptIds).events.getLast? =
        some (StreamEvent.error m)) := by
  unfold generateStream
  cases modelLoaded with
  | false =>
    refine ⟨by simp [isDoneEv], by simp [isErrEv], ?_⟩
    intro m hm
    simp at hm ⊢
    rw [hm]
  | true =>
    obtain ⟨hErrFree, hDoneCnt, hDoneFree⟩ :=
      genLoop_events cfg decode toks cfg.maxNewTokens 0 (initState promptIds)
    have hFin := finalize_events cfg decode
    cases hl : genLoop cfg decode toks 0 cfg.maxNewTokens (initState promptIds) with
    | mk evs rest =>
      rw [hl] at hErrFree hDoneCnt hDoneFree
      cases rest with
      | mk st x =>
        dsimp only at hErrFree hDoneCnt hDoneFree
        have hEvsDone : (evs.filter isDoneEv).length ≤ 1 := hDoneCnt
        have hEvsErrNil : evs.filter isErrEv = [] := filter_nil_of_false _ _ hErrFree
        cases x with
        | exn m =>
          simp only [Bool.not_true, Bool.false_eq_true, if_false]
          refine ⟨?_, ?_, ?_⟩
          · rw [List.filter_append, List.length_append]
            rw [show List.filter isDoneEv [StreamEvent.error m] = [] from rfl]
            simpa using hEvsDone
          · rw [List.filter_append, List.length_append, hEvsErrNil]
            simp [isErrEv]
          · exact error_last_of_append evs m hErrFree
        | limit =>
          simp only [Bool.not_true, Bool.false_eq_true, if_false]
          have hF := hFin st
          cases hf : finalize cfg decode st with
          | mk evs2 r =>
            rw [hf] at hF
            dsimp only at hF
            have hEvs2Done : evs2.filter isDoneEv = [] :=
              filter_nil_of_false _ _ (fun e he => (hF e he).1)
            have hEvs2Err : evs2.filter isErrEv = [] :=
              filter_nil_of_false _ _ (fun e he => (hF e he).2)
            cases r with
            | error m =>
              dsimp only
              refine ⟨?_, ?_, ?_⟩
              · rw [show evs ++ evs2 ++ [StreamEvent.error m] =
                    (evs ++ evs2) ++ [StreamEvent.error m] from by simp,
                  List.filter_append, List.length_append, List.filter_append,
                  hEvs2Done,
                  show List.filter isDoneEv [StreamEvent.error m] = [] from rfl]
                simpa using hEvsDone
              · rw [show evs ++ evs2 ++ [StreamEvent.error m] =
                    (evs ++ evs2) ++ [StreamEvent.error m] from by simp,
                  List.filter_append, List.length_append, List.filter_append,
                  hEvsErrNil, hEvs2Err]
                simp [isErrEv]
              · rw [show evs ++ evs2 ++ [StreamEvent.error m] =
                    (evs ++ evs2) ++ [StreamEvent.error m] from by simp]
                refine error_last_of_append (evs ++ evs2) m ?_
                intro e he
                rcases List.mem_append.mp he with hh | hh
                · exact hErrFree e hh
                · exact (hF e hh).2
            | ok sv =>
              dsimp only
              refine ⟨?_, ?_, ?_⟩
              · rw [List.filter_append, List.length_append, hEvs2Done]
                simpa using hEvsDone
              · rw [List.filter_append, List.length_append, hEvsErrNil, hEvs2Err]
                simp
              · intro m hm
                rcases List.mem_append.mp hm with hh | hh
                · have hc := hErrFree _ hh
                  simp [isErrEv] at hc
                · have hc := (hF _ hh).2
                  simp [isErrEv] at hc
        | eosBreak =>
          simp only [Bool.not_true, Bool.false_eq_true, if_false]
          have hF := hFin st
          cases hf : finalize cfg decode st with
          | mk evs2 r =>
            rw [hf] at hF
            dsimp only at hF
            have hEvs2Done : evs2.filter isDoneEv = [] :=
              filter_nil_of_false _ _ (fun e he => (hF e he).1)
            have hEvs2Err : evs2.filter isErrEv = [] :=
              filter_nil_of_false _ _ (fun e he => (hF e he).2)
            cases r with
            | error m =>
              dsimp only
              refine ⟨?_, ?_, ?_⟩
              · rw [show evs ++ evs2 ++ [StreamEvent.error m] =
                    (evs ++ evs2) ++ [StreamEvent.error m] from by simp,
                  List.filter_append, List.length_append, List.filter_append,
                  hEvs2Done,
                  show List.filter isDoneEv [StreamEvent.error m] = [] from rfl]
                simpa using hEvsDone
              · rw [show evs ++ evs2 ++ [StreamEvent.error m] =
                    (evs ++ evs2) ++ [StreamEvent.error m] from by simp,
                  List.filter_append, List.length_append, List.filter_append,
                  hEvsErrNil, hEvs2Err]
                simp [isErrEv]
              · rw [show evs ++ evs2 ++ [StreamEvent.error m] =
                    (evs ++ evs2) ++ [StreamEvent.error m] from by simp]
                refine error_last_of_append (evs ++ evs2) m ?_
                intro e he
                rcases List.mem_append.mp he with hh | hh
                · exact hErrFree e hh
                · exact (hF e hh).2
            | ok sv =>
              dsimp only
              refine ⟨?_, ?_, ?_⟩
              · rw [List.filter_append, List.length_append, hEvs2Done]
                simpa using hEvsDone
              · rw [List.filter_append, List.length_append, hEvsErrNil, hEvs2Err]
                simp
              · intro m hm
                rcases List.mem_append.mp hm with hh | hh
                · have hc := hErrFree _ hh
                  simp [isErrEv] at hc
                · have hc := (hF _ hh).2
                  simp [isErrEv] at hc

/-- C3 amended-claim witness: a run whose step-0 forward pass raises, so
the only frame is the final error frame. -/
theorem terminal_event_structure_witness :
    (((generateStream
      { eosTokenId := 7, thinkingTokenId := 8, enableThinking := true,
        maxNewTokens := 3, conversationId := 1 }
      true (fun _ _ => Except.ok "x")
      (fun _ => Except.error "kaput") []).events.filter isDoneEv).length ≤ 1) ∧
    (((generateStream
      { eosTokenId := 7, thinkingTokenId := 8, enableThinking := true,
        maxNewTokens := 3, conversationId := 1 }
      true (fun _ _ => Except.ok "x")
      (fun _ => Except.error "kaput") []).events.filter isErrEv).length ≤ 1) ∧
    (generateStream
      { eosTokenId := 7, thinkingTokenId := 8, enableThinking := true,
        maxNewTokens := 3, conversationId := 1 }
      true (fun _ _ => Except.ok "x")
      (fun _ => Except.error "kaput") []).events.getLast? =
      some (StreamEvent.error "kaput") := by
  have h := terminal_event_structure
    { eosTokenId := 7, thinkingTokenId := 8, enableThinking := true,
      maxNewTokens := 3, conversationId := 1 }
    true (fun _ _ => Except.ok "x") (fun _ => Except.error "kaput") []
  exact ⟨h.1, h.2.1, h.2.2 "kaput" (by decide)⟩

end TBYS
